import Mathlib

/- Verification development for the retrieval pipeline of the
   DiscoveryRAGAgent backend (document chunking, keyword/context tagging,
   deduplicated indexing, query expansion, hybrid retrieval, reranking).

   The Python sources are embedded shallowly:
   * Python strings are modelled as `List Char` (`Str`).
   * Python dictionaries with a fixed shape are modelled as structures;
     possibly-absent keys become `Option` fields.
   * Calls into the external vector store, which may raise, are modelled as
     `Except`-valued fields of an explicit environment record.
   * Python `str.lower` is modelled on the ASCII and Latin-1 range, which
     covers the Portuguese domain vocabulary appearing in the program.
   * Python `set` iteration order is unspecified; wherever the source
     iterates over a set only to sum scores or to deduplicate, the model
     uses a first-occurrence deduplicated list, which produces the same
     sums and the same membership.
-/

abbrev Str := List Char

/-- Python `str.lower`, restricted to the ASCII and Latin-1 letters. -/
def pyLowerChar (c : Char) : Char :=
  if 'A' ≤ c ∧ c ≤ 'Z' then Char.ofNat (c.toNat + 32)
  else if 0xC0 ≤ c.toNat ∧ c.toNat ≤ 0xDE ∧ c.toNat ≠ 0xD7 then Char.ofNat (c.toNat + 32)
  else c

def lowerStr (s : Str) : Str := s.map pyLowerChar

/-- Python whitespace (`str.split()` / `str.strip()` / regex `\s`), ASCII range. -/
def isPySpace (c : Char) : Bool :=
  c = ' ' || c = '\t' || c = '\n' || c = '\r' || c = Char.ofNat 11 || c = Char.ofNat 12

/-- Regex `\w` (word character), ASCII plus Latin-1 letters. -/
def isWordChar (c : Char) : Bool :=
  ('a' ≤ c && c ≤ 'z') || ('A' ≤ c && c ≤ 'Z') || ('0' ≤ c && c ≤ '9') || c = '_'
  || c.toNat = 0xAA || c.toNat = 0xB5 || c.toNat = 0xBA
  || (0xC0 ≤ c.toNat && c.toNat ≤ 0xFF && c.toNat ≠ 0xD7 && c.toNat ≠ 0xF7)

/-- Maximal runs of characters satisfying `p` (used for `str.split()` and
    `re.findall(r'\w+', ...)`); `cur` is the run being scanned, reversed. -/
def runsOfAux (p : Char → Bool) (cur : Str) : Str → List Str
  | [] => if cur.isEmpty then [] else [cur.reverse]
  | c :: t =>
    if p c then runsOfAux p (c :: cur) t
    else if cur.isEmpty then runsOfAux p [] t
    else cur.reverse :: runsOfAux p [] t

def runsOf (p : Char → Bool) (s : Str) : List Str := runsOfAux p [] s

/-- Python `str.split()` with no separator: whitespace-delimited tokens. -/
def splitWS (s : Str) : List Str := runsOf (fun c => !isPySpace c) s

/-- `re.findall(r'\w+', s)`. -/
def wordTokens (s : Str) : List Str := runsOf isWordChar s

/-- Python `pat in s` (substring containment). -/
def isSubstr (pat : Str) : Str → Bool
  | [] => pat.isEmpty
  | c :: t => pat.isPrefixOf (c :: t) || isSubstr pat t

/-- Python `s.count(pat)` for a non-empty `pat`: non-overlapping occurrences
    scanned from the left.  The fuel argument (structurally decreasing, one
    unit per inspected position) starts at `s.length`, which suffices since
    every step consumes at least one character of `s`. -/
def countOccAux (pat : Str) : Nat → Str → Nat
  | 0, _ => 0
  | _, [] => 0
  | fuel + 1, c :: t =>
    if pat.isPrefixOf (c :: t) then 1 + countOccAux pat fuel ((c :: t).drop pat.length)
    else countOccAux pat fuel t

/-- Python `s.count(pat)` (`s.count('')` is `len(s) + 1`). -/
def countOcc (pat : Str) (s : Str) : Nat :=
  if pat.isEmpty then s.length + 1 else countOccAux pat s.length s

/-- Python `s.split("\n\n")` (the only multi-character split the program
    performs): split at leftmost, non-overlapping occurrences of two
    consecutive newlines, keeping empty pieces. -/
def splitParagraphs : Str → List Str
  | [] => [[]]
  | '\n' :: '\n' :: t => [] :: splitParagraphs t
  | c :: t =>
    match splitParagraphs t with
    | [] => [[c]]
    | r :: rs => (c :: r) :: rs

/-- Python `s.split("/")` (used by `os.path.basename`). -/
def splitSlash : Str → List Str
  | [] => [[]]
  | '/' :: t => [] :: splitSlash t
  | c :: t =>
    match splitSlash t with
    | [] => [[c]]
    | r :: rs => (c :: r) :: rs

/-- Python `sep.join(pieces)`. -/
def joinSep (sep : Str) : List Str → Str
  | [] => []
  | [x] => x
  | x :: y :: xs => x ++ sep ++ joinSep sep (y :: xs)

/-- Python `s.strip()`. -/
def pyStrip (s : Str) : Str :=
  ((s.dropWhile isPySpace).reverse.dropWhile isPySpace).reverse

/-- `list(set(...))` / set-based deduplication, modelled as keeping the first
    occurrence of each element (set iteration order is unspecified in Python;
    no theorem below depends on the order chosen here). -/
def dedupFirstAux (seen : List Str) : List Str → List Str
  | [] => []
  | x :: xs =>
    if x ∈ seen then dedupFirstAux seen xs
    else x :: dedupFirstAux (x :: seen) xs

def dedupKeepFirst (l : List Str) : List Str := dedupFirstAux [] l

/- ---------------------------------------------------------------------
   A small regex evaluator for the fixed patterns compiled in
   `document_ingestor.py` (`perfil_patterns`).  `reRems re s` returns the
   list of possible remainders after matching `re` against a prefix of `s`;
   a search succeeds if some suffix position admits a match.
   --------------------------------------------------------------------- -/

inductive RE where
  | eps : RE
  | tok (p : Char → Bool) : RE
  | ws : RE
  | cat (a b : RE) : RE
  | alt (a b : RE) : RE
  | opt (a : RE) : RE

/-- Remainders after consuming one-or-more whitespace characters (`\s+`). -/
def wsTails : Str → List Str
  | [] => []
  | c :: t => if isPySpace c then t :: wsTails t else []

def reRems : RE → Str → List Str
  | .eps, s => [s]
  | .tok _, [] => []
  | .tok p, c :: t => if p c then [t] else []
  | .ws, s => wsTails s
  | .cat a b, s => (reRems a s).flatMap (reRems b)
  | .alt a b, s => reRems a s ++ reRems b s
  | .opt a, s => s :: reRems a s

def reMatchAt (re : RE) (s : Str) : Bool := !(reRems re s).isEmpty

/-- `re.search`: try to match at every suffix position. -/
def reSearch (re : RE) : Str → Bool
  | [] => reMatchAt re []
  | c :: t => reMatchAt re (c :: t) || reSearch re t

def reSeq (l : List RE) : RE := l.foldr RE.cat RE.eps

def reLit (s : String) : RE := reSeq (s.toList.map (fun c => RE.tok (· == c)))

def reOpt (c : Char) : RE := RE.opt (RE.tok (· == c))

def reOneOf (cs : List Char) : RE := RE.tok (fun d => cs.contains d)

/-- `(?:usuários?|clientes?)` -/
def reUserOrClient : RE :=
  RE.alt (reSeq [reLit "usuário", reOpt 's']) (reSeq [reLit "cliente", reOpt 's'])

/-- `(?:dos?|das?)` -/
def reDosDas : RE := reSeq [reLit "d", reOneOf ['o', 'a'], reOpt 's']

/-- The seven `(?i)` patterns of `perfil_patterns`, written over lowercase
    letters; the `(?i)` flag is modelled by searching the lowercased text. -/
def perfilPatterns : List RE :=
  [ reSeq [reLit "perfi", reOpt 's', RE.ws, reLit "de", RE.ws, reLit "usuário", reOpt 's'],
    reSeq [reLit "persona", reOpt 's'],
    reSeq [reLit "segmenta", reOneOf ['ç', 'c'], reOneOf ['a', 'ã'], reLit "o",
           RE.ws, reLit "de", RE.ws, reUserOrClient],
    reSeq [reLit "público", reOpt 's', RE.tok (fun c => isPySpace c || c = '-'),
           reLit "alvo", reOpt 's'],
    reSeq [reLit "tipo", reOpt 's', RE.ws, reLit "de", RE.ws, reUserOrClient],
    reSeq [reLit "caracter", reOneOf ['í', 'i'], reLit "stica", reOpt 's',
           RE.ws, reDosDas, RE.ws, reUserOrClient],
    reSeq [reLit "comportamento", reOpt 's', RE.ws, reDosDas, RE.ws, reUserOrClient] ]

/- ---------------------------------------------------------------------
   Passage annotator: `extract_keywords` and `detect_semantic_context`.
   --------------------------------------------------------------------- -/

def strL (x : String) : Str := x.toList

def strLs (xs : List String) : List Str := xs.map String.toList

/-- `DocumentIngestor.extract_keywords`: fixed domain vocabulary present in
    the lowercased text, deduplicated (`list(set(...))`). -/
def domainTerms : List Str := strLs
  [ "perfil", "perfis", "usuário", "usuários", "cliente", "clientes",
    "persona", "personas", "segmentação", "segmento", "público-alvo",
    "comportamento", "necessidade", "necessidades", "dor", "dores",
    "jornada", "experiência", "discovery", "pesquisa", "entrevista",
    "validação", "hipótese", "métrica", "produto", "serviço",
    "stone", "ton", "pagar.me", "pagarme", "pagamento" ]

def compoundTerms : List Str := strLs
  [ "perfil de usuário", "perfis de usuários", "persona de cliente",
    "segmentação de clientes", "público-alvo", "jornada do usuário",
    "experiência do cliente", "pesquisa de usuário", "entrevista com usuário" ]

def extractKeywords (text : Str) : List Str :=
  let tl := lowerStr text
  dedupKeepFirst
    (domainTerms.filter (fun t => isSubstr t tl)
      ++ compoundTerms.filter (fun t => isSubstr t tl))

def contextsTable : List (Str × List Str) :=
  [ (strL "pesquisa", strLs ["pesquisa", "entrevista", "survey", "questionário", "estudo"]),
    (strL "produto", strLs ["produto", "feature", "funcionalidade", "recurso", "serviço"]),
    (strL "metricas", strLs ["métrica", "kpi", "indicador", "performance", "desempenho"]),
    (strL "estrategia", strLs ["estratégia", "objetivo", "meta", "visão", "missão"]),
    (strL "tecnologia", strLs ["tecnologia", "sistema", "plataforma", "software", "aplicativo"]) ]

/-- `DocumentIngestor.detect_semantic_context`. -/
def detectSemanticContext (text : Str) : Str :=
  if perfilPatterns.any (fun re => reSearch re (lowerStr text)) then
    strL "perfil_usuario"
  else
    let detected := contextsTable.filterMap
      (fun p => if p.2.any (fun t => isSubstr t (lowerStr text)) then some p.1 else none)
    if detected.isEmpty then strL "geral" else joinSep (strL "_") detected

/- ---------------------------------------------------------------------
   Header classification used by `chunk_document_semantic`.
   The five regexes are applied (via `re.match`) to the stripped paragraph,
   and the decision procedures below are written for stripped input (no
   leading or trailing whitespace), which makes the `$` anchor equivalent
   to end-of-string.
   --------------------------------------------------------------------- -/

def isAsciiUpper (c : Char) : Bool := 'A' ≤ c && c ≤ 'Z'

def isAsciiAlpha (c : Char) : Bool := ('A' ≤ c && c ≤ 'Z') || ('a' ≤ c && c ≤ 'z')

/-- Cased lowercase letters in the ASCII / Latin-1 range (for `str.isupper`). -/
def isLowerCased (c : Char) : Bool :=
  ('a' ≤ c && c ≤ 'z') || c.toNat = 0xAA || c.toNat = 0xB5 || c.toNat = 0xBA
  || (0xDF ≤ c.toNat && c.toNat ≤ 0xFF && c.toNat ≠ 0xF7)

def isUpperCased (c : Char) : Bool :=
  ('A' ≤ c && c ≤ 'Z') || (0xC0 ≤ c.toNat && c.toNat ≤ 0xDE && c.toNat ≠ 0xD7)

/-- Python `str.isupper`: at least one cased character and no lowercase one. -/
def pyIsUpper (s : Str) : Bool :=
  s.any (fun c => isLowerCased c || isUpperCased c) && s.all (fun c => !isLowerCased c)

/-- `re.match(r'^#+\s+(.+)$', s)` on a stripped `s`: one or more `#`, at
    least one whitespace character, then a non-empty newline-free rest. -/
def headerPat1 (s : Str) : Bool :=
  let t := s.dropWhile (· == '#')
  let u := t.dropWhile isPySpace
  decide (t.length < s.length) && decide (u.length < t.length)
    && !u.isEmpty && !u.contains '\n'

/-- `re.match(r'^(.+)\n[=\-]{3,}$', s)` on a stripped `s`: a newline-free
    first line, then a line of three or more `=`/`-` characters. -/
def headerPat2 (s : Str) : Bool :=
  let b := s.takeWhile (· ≠ '\n')
  match s.dropWhile (· ≠ '\n') with
  | '\n' :: rest =>
    !b.isEmpty && decide (3 ≤ rest.length) && rest.all (fun c => c = '=' || c = '-')
  | _ => false

/-- `re.match(r'^(\d+\.?\s+.+)$', s)` on a stripped `s`. -/
def headerPat3 (s : Str) : Bool :=
  let t := s.dropWhile (fun c => '0' ≤ c && c ≤ '9')
  if t.length = s.length then false
  else
    let t2 := match t with | '.' :: r => r | _ => t
    let u := t2.dropWhile isPySpace
    decide (u.length < t2.length) && !u.isEmpty && !u.contains '\n'

/-- `re.match(r'^([A-Z][A-Za-z\s]+:)$', s)` on a stripped `s`. -/
def headerPat4 (s : Str) : Bool :=
  match s with
  | [] => false
  | c :: rest =>
    isAsciiUpper c && rest.getLast? == some ':'
      && !rest.dropLast.isEmpty
      && rest.dropLast.all (fun d => isAsciiAlpha d || isPySpace d)

/-- `re.match(r'^([A-Z][A-Za-z\s]+)$', s)` on a stripped `s`. -/
def headerPat5 (s : Str) : Bool :=
  match s with
  | [] => false
  | c :: rest =>
    isAsciiUpper c && !rest.isEmpty && rest.all (fun d => isAsciiAlpha d || isPySpace d)

/-- The local `is_header` predicate of `chunk_document_semantic`. -/
def pyIsHeader (paragraph : Str) : Bool :=
  let p := pyStrip paragraph
  if 100 < p.length then false
  else if headerPat1 p || headerPat2 p || headerPat3 p || headerPat4 p || headerPat5 p then
    true
  else if pyIsUpper p && decide (p.length < 50) then true
  else false

/-- `os.path.splitext` on a bare file name. -/
def pySplitExt (name : Str) : Str × Str :=
  match name.reverse.findIdx? (· == '.') with
  | none => (name, [])
  | some ridx =>
    let i := name.length - 1 - ridx
    if (name.take i).all (· == '.') then (name, []) else (name.take i, name.drop i)

/- ---------------------------------------------------------------------
   Chunk splitter: `chunk_document` (fixed window over paragraphs) and
   `chunk_document_semantic` (header-grouped sections).
   Documents are Python dicts; possibly-absent keys are `Option` fields.
   --------------------------------------------------------------------- -/

inductive MetaVal where
  | natV (n : Nat)
  | strV (s : Str)
deriving DecidableEq, Repr

/-- Python dict assignment `d[k] = v`: update in place or append. -/
def dictUpsert (m : List (Str × MetaVal)) (k : Str) (v : MetaVal) : List (Str × MetaVal) :=
  if m.any (fun p => p.1 = k) then m.map (fun p => if p.1 = k then (k, v) else p)
  else m ++ [(k, v)]

structure IngestDoc where
  title? : Option Str
  content? : Option Str
  metadata? : Option (List (Str × MetaVal))
  keywords? : Option (List Str)
  semanticContext? : Option Str
deriving DecidableEq, Repr

def nl2 : Str := strL "\n\n"

/-- `range(0, n, step)` for a positive step (a non-positive step never occurs
    under the configurations the claims quantify over). -/
def sliceStarts (step n : Nat) : List Nat :=
  if step = 0 then [] else List.range' 0 ((n + step - 1) / step) step

/-- The inner loop slicing one oversized paragraph:
    `for i in range(0, len(p), chunk_size - overlap): chunks.append(p[i:i+chunk_size])`. -/
def sliceParagraph (chunkSize overlap : Nat) (p : Str) : List Str :=
  (sliceStarts (chunkSize - overlap) p.length).map (fun i => (p.drop i).take chunkSize)

/-- One iteration of the paragraph loop of `chunk_document`; the state is
    `(chunks, current_chunk)`. -/
def chunkStep (chunkSize overlap : Nat) (st : List Str × Str) (p : Str) : List Str × Str :=
  let chunks := st.1
  let cur := st.2
  if chunkSize < p.length then
    ((if cur.isEmpty then chunks else chunks ++ [cur]) ++ sliceParagraph chunkSize overlap p, [])
  else if chunkSize < cur.length + p.length then
    (chunks ++ [cur], p)
  else
    (chunks, (if cur.isEmpty then cur else cur ++ nl2) ++ p)

/-- The trailing `if current_chunk: chunks.append(current_chunk)`. -/
def flushChunks (st : List Str × Str) : List Str :=
  if st.2.isEmpty then st.1 else st.1 ++ [st.2]

/-- The chunk bodies produced by `chunk_document` for a given body text. -/
def chunkBodiesOf (chunkSize overlap : Nat) (content : Str) : List Str :=
  flushChunks ((splitParagraphs content).foldl (chunkStep chunkSize overlap) ([], []))

def mkFixedChunk (doc : IngestDoc) (total : Nat) (i : Nat) (body : Str) : IngestDoc :=
  { title? := some ((doc.title?.getD (strL "Sem título")) ++ strL " - Parte "
                     ++ (toString (i + 1)).toList),
    content? := some body,
    metadata? := some (dictUpsert (dictUpsert (doc.metadata?.getD [])
                        (strL "chunk_index") (.natV i)) (strL "total_chunks") (.natV total)),
    keywords? := some (extractKeywords body),
    semanticContext? := some (detectSemanticContext body) }

/-- `DocumentIngestor.chunk_document(document, chunk_size=1000, overlap=200)`. -/
def chunkDocument (doc : IngestDoc) (chunkSize overlap : Nat) : List IngestDoc :=
  let content := doc.content?.getD []
  if content.isEmpty then [doc]
  else
    let bodies := chunkBodiesOf chunkSize overlap content
    bodies.enum.map (fun p => mkFixedChunk doc bodies.length p.1 p.2)

/-- One iteration of the header-grouping loop of `chunk_document_semantic`;
    the state is `(sections, current_header, current_content)`. -/
def sectionStep (st : List (Str × List Str) × Str × List Str) (p : Str) :
    List (Str × List Str) × Str × List Str :=
  if pyIsHeader p then
    ((if st.2.2.isEmpty then st.1 else st.1 ++ [(st.2.1, st.2.2)]), p, [])
  else (st.1, st.2.1, st.2.2 ++ [p])

/-- The header-grouping loop of `chunk_document_semantic`: fold paragraphs
    into `(sections, current_header, current_content)` and flush at the end. -/
def sectionsFold (paragraphs : List Str) : List (Str × List Str) :=
  let f := paragraphs.foldl sectionStep ([], [], [])
  if f.2.2.isEmpty then f.1 else f.1 ++ [(f.2.1, f.2.2)]

def mkSemChunk (doc : IngestDoc) (total : Nat) (i : Nat) (sec : Str × List Str) : IngestDoc :=
  let sectionContent := sec.1 ++ (if sec.2.isEmpty then [] else nl2 ++ joinSep nl2 sec.2)
  { title? := some ((doc.title?.getD (strL "Sem título")) ++ strL " - " ++ sec.1.take 50),
    content? := some sectionContent,
    metadata? := some (dictUpsert (dictUpsert (dictUpsert (doc.metadata?.getD [])
                        (strL "chunk_index") (.natV i)) (strL "total_chunks") (.natV total))
                        (strL "section_header") (.strV sec.1)),
    keywords? := some (extractKeywords sectionContent),
    semanticContext? := some (detectSemanticContext sectionContent) }

/-- `DocumentIngestor.chunk_document_semantic(document)`. -/
def chunkDocumentSemantic (doc : IngestDoc) : List IngestDoc :=
  let content := doc.content?.getD []
  if content.isEmpty then [doc]
  else
    let paragraphs := (splitParagraphs content).filter (fun p => !(pyStrip p).isEmpty)
    let sections := sectionsFold paragraphs
    if sections.isEmpty then chunkDocument doc 1000 200
    else sections.enum.map (fun pr => mkSemChunk doc sections.length pr.1 pr.2)

/- ---------------------------------------------------------------------
   Retrieval-side documents, reranker (`_rerank_documents`), and query
   expansion (`_expand_query`, `_is_about_profiles`).
   --------------------------------------------------------------------- -/

structure RetDoc where
  title : Str
  content : Str
  semanticContext : Str
  keywords : List Str
  fileName : Str
  filePath : Str
  score : Nat
deriving DecidableEq, Repr

/-- `_is_about_profiles` / the `profile_terms` list of `_rerank_documents`. -/
def profileTermsRag : List Str := strLs
  [ "perfil", "perfis", "usuário", "usuários", "cliente", "clientes",
    "persona", "personas", "segmentação", "público-alvo", "target" ]

def isAboutProfiles (query : Str) : Bool :=
  profileTermsRag.any (fun t => isSubstr t (lowerStr query))

/-- The score `_rerank_documents` computes for one candidate document. -/
def rerankScore (query : Str) (doc : RetDoc) : Nat :=
  let queryTerms := dedupKeepFirst (splitWS (lowerStr query))
  let queryLower := lowerStr query
  let isProfileQ := isAboutProfiles query
  let content := lowerStr doc.content
  let title := lowerStr doc.title
  let s1 := queryTerms.foldl (fun acc term => acc + (if isSubstr term title then 10 else 0)) 0
  let s2 := queryTerms.foldl (fun acc term => acc + countOcc term content * 2) 0
  let s3 := if isSubstr queryLower content then 50 else 0
  let s4 := if isProfileQ then
      profileTermsRag.foldl
        (fun acc term => acc + (if isSubstr term content then countOcc term content else 0)) 0
    else 0
  let s5 := if !doc.semanticContext.isEmpty then
      (if isProfileQ && isSubstr (strL "perfil") doc.semanticContext then 30
       else if queryTerms.any (fun t => isSubstr t doc.semanticContext) then 20 else 0)
    else 0
  let s6 := doc.keywords.foldl
    (fun acc kw => acc + (if isSubstr (lowerStr kw) queryLower then 15 else 0)) 0
  s1 + s2 + s3 + s4 + s5 + s6

/-- The rerank score without its exact-phrase component (term 3 of
    `_rerank_documents`); used to state how far the +50 bonus reaches. -/
def rerankBaseScore (query : Str) (doc : RetDoc) : Nat :=
  let queryTerms := dedupKeepFirst (splitWS (lowerStr query))
  let queryLower := lowerStr query
  let isProfileQ := isAboutProfiles query
  let content := lowerStr doc.content
  let title := lowerStr doc.title
  let s1 := queryTerms.foldl (fun acc term => acc + (if isSubstr term title then 10 else 0)) 0
  let s2 := queryTerms.foldl (fun acc term => acc + countOcc term content * 2) 0
  let s4 := if isProfileQ then
      profileTermsRag.foldl
        (fun acc term => acc + (if isSubstr term content then countOcc term content else 0)) 0
    else 0
  let s5 := if !doc.semanticContext.isEmpty then
      (if isProfileQ && isSubstr (strL "perfil") doc.semanticContext then 30
       else if queryTerms.any (fun t => isSubstr t doc.semanticContext) then 20 else 0)
    else 0
  let s6 := doc.keywords.foldl
    (fun acc kw => acc + (if isSubstr (lowerStr kw) queryLower then 15 else 0)) 0
  s1 + s2 + s4 + s5 + s6

/-- `_rerank_documents`: score every candidate, then a stable descending
    sort by score (Python `list.sort(key=..., reverse=True)`). -/
def rerankDocuments (documents : List RetDoc) (query : Str) : List RetDoc :=
  if documents.isEmpty then []
  else
    let scored := documents.map (fun d => (d, rerankScore query d))
    (scored.mergeSort (fun a b => b.2 ≤ a.2)).map Prod.fst

/-- `self.topic_expansions` (insertion order preserved). -/
def topicExpansions : List (Str × List Str) :=
  [ (strL "perfil", strLs
      [ "perfis de usuários", "personas", "segmentação de clientes",
        "público-alvo", "comportamento do usuário", "necessidades do cliente",
        "características do usuário", "tipos de clientes", "segmentos de mercado",
        "usuários típicos", "clientes ideais", "target", "demografia" ]),
    (strL "usuário", strLs
      [ "cliente", "consumidor", "pessoa", "indivíduo", "utilizador",
        "comprador", "público", "audiência", "target", "prospect" ]),
    (strL "discovery", strLs
      [ "pesquisa", "investigação", "exploração", "análise", "estudo",
        "levantamento", "diagnóstico", "avaliação", "descoberta", "insights" ]),
    (strL "produto", strLs
      [ "serviço", "solução", "oferta", "aplicativo", "app", "plataforma",
        "ferramenta", "sistema", "funcionalidade", "recurso" ]),
    (strL "stone", strLs
      [ "ton", "pagar.me", "pagarme", "pagamentos", "maquininha",
        "adquirência", "gateway", "financeiro", "banking", "conta" ]),
    (strL "objetivo", strLs
      [ "meta", "propósito", "finalidade", "alvo", "intenção",
        "missão", "visão", "estratégia", "plano", "direção" ]),
    (strL "experiência", strLs
      [ "ux", "ui", "usabilidade", "interface", "interação",
        "jornada", "fluxo", "design", "layout", "navegação" ]),
    (strL "problema", strLs
      [ "dor", "dificuldade", "desafio", "obstáculo", "barreira",
        "limitação", "restrição", "impedimento", "complicação", "questão" ]),
    (strL "solução", strLs
      [ "resolução", "resposta", "abordagem", "estratégia", "tática",
        "método", "técnica", "prática", "implementação", "execução" ]),
    (strL "mercado", strLs
      [ "indústria", "setor", "nicho", "segmento", "área",
        "campo", "domínio", "espaço", "ambiente", "ecossistema" ]) ]

/-- The fixed block appended by `_expand_query` for profile-intent queries. -/
def profileExpansionBlock : List Str := strLs
  [ "quem são os usuários", "quais são os perfis", "tipos de usuários",
    "segmentos de clientes", "características dos usuários", "comportamento dos clientes",
    "necessidades dos usuários", "personas identificadas", "público-alvo definido",
    "segmentação de mercado", "perfil demográfico", "perfis já identificados",
    "usuários conhecidos", "personas existentes", "segmentos definidos",
    "clientes atuais", "base de usuários" ]

/-- `[word.lower() for word in re.findall(r'\w+', query.lower()) if len(word) > 3]`. -/
def queryWords (query : Str) : List Str :=
  (wordTokens (lowerStr query)).filter (fun w => 3 < w.length)

/-- The `expanded_terms` list accumulated by `_expand_query` before
    deduplication. -/
def expansionTermsOf (query : Str) : List Str :=
  (queryWords query).flatMap (fun w =>
    topicExpansions.flatMap (fun p => if isSubstr w p.1 || isSubstr p.1 w then p.2 else []))
  ++ (if isAboutProfiles query then profileExpansionBlock else [])

/-- `RAGIntegration._expand_query`. -/
def expandQuery (query : Str) : Str :=
  let expandedTerms := expansionTermsOf query
  if expandedTerms.isEmpty then query
  else
    let uniq := dedupKeepFirst expandedTerms
    let expanded := query ++ [' '] ++ joinSep [' '] uniq
    if 1000 < expanded.length then expanded.take 1000 else expanded

/-- The synonym table local to `_keyword_search`. -/
def synonymsTable : List (Str × List Str) :=
  [ (strL "perfil", strLs ["persona", "usuário", "cliente", "público", "segmento"]),
    (strL "usuário", strLs ["cliente", "pessoa", "consumidor", "utilizador"]),
    (strL "cliente", strLs ["usuário", "pessoa", "consumidor", "utilizador"]),
    (strL "segmento", strLs ["grupo", "categoria", "classe", "tipo"]),
    (strL "comportamento", strLs ["hábito", "costume", "prática", "ação"]),
    (strL "necessidade", strLs ["demanda", "requisito", "exigência", "precisão"]),
    (strL "problema", strLs ["dor", "dificuldade", "obstáculo", "desafio"]),
    (strL "objetivo", strLs ["meta", "propósito", "finalidade", "alvo"]),
    (strL "discovery", strLs ["pesquisa", "investigação", "exploração", "análise"]),
    (strL "experiência", strLs ["ux", "ui", "usabilidade", "interface"]),
    (strL "produto", strLs ["serviço", "solução", "oferta", "aplicativo"]),
    (strL "mercado", strLs ["indústria", "setor", "nicho", "segmento"]) ]

/-- The `expanded_terms` set of `_keyword_search`, as a deduplicated list. -/
def keywordExpandedTerms (query : Str) : List Str :=
  let qws := queryWords query
  dedupKeepFirst
    (qws ++ qws.flatMap (fun w =>
      ((synonymsTable.find? (fun p => p.1 == w)).map Prod.snd).getD []))

/- ---------------------------------------------------------------------
   Hybrid retriever: `search_documents`, `_keyword_search`,
   `_local_file_search`.  The vector-store client and the local data
   directory are modelled by an explicit environment; every store call that
   can raise is an `Except`-valued field.
   --------------------------------------------------------------------- -/

structure LocalFile where
  name : Str
  isFile : Bool
  readRes : Except Str Str

structure StoreEnv where
  clientPresent : Bool
  connected : Bool
  isReadyRes : Except Str Bool
  schemaRes : Except Str (List (Str × Str))
  nearTextRes : Str → Nat → Except Str (List RetDoc)
  getAllRes : Except Str (List RetDoc)
  dataDirExists : Bool
  dataDirPath : Str
  localFiles : List LocalFile

/-- `_local_file_search(query, expanded_terms, limit)`: scan the local data
    directory, score readable text files by raw term frequency, sort by
    score (stable, descending) and keep the top `limit`. -/
def localFileSearch (env : StoreEnv) (terms : List Str) (limit : Nat) : List RetDoc :=
  if !env.dataDirExists then []
  else
    let docs := env.localFiles.filterMap (fun f =>
      if !f.isFile then none
      else if lowerStr (pySplitExt f.name).2 ∈ [strL ".txt", strL ".md", strL ".csv"] then
        match f.readRes with
        | .error _ => none
        | .ok content =>
          let score := terms.foldl (fun acc t => acc + countOcc t (lowerStr content)) 0
          if 0 < score then
            some ⟨f.name, content, [], [], f.name, env.dataDirPath ++ ['/'] ++ f.name, score⟩
          else none
      else none)
    ((docs.mergeSort (fun a b => b.score ≤ a.score)).take limit)

/-- `_keyword_search(query, limit)`: term-frequency scoring over all stored
    documents, falling back to the local-file scan when the store is absent
    or its bulk fetch raises. -/
def keywordSearch (env : StoreEnv) (query : Str) (limit : Nat) : List RetDoc :=
  let expandedTerms := keywordExpandedTerms query
  if !env.clientPresent || !env.connected then localFileSearch env expandedTerms limit
  else
    match env.getAllRes with
    | .error _ => localFileSearch env expandedTerms limit
    | .ok docs =>
      let relevant := docs.filterMap (fun d =>
        let score := expandedTerms.foldl
          (fun acc term =>
            acc + countOcc term (lowerStr d.title) * 3 + countOcc term (lowerStr d.content)) 0
        if 0 < score then some { d with score := score } else none)
      ((relevant.mergeSort (fun a b => b.score ≤ a.score)).take limit)

/-- The vectorizer reported for class `Document` by the schema, `"none"` on
    a missing class or a raised schema call. -/
def vectorizerOf (env : StoreEnv) : Str :=
  match env.schemaRes with
  | .error _ => strL "none"
  | .ok classes => (((classes.find? (fun c => c.1 == strL "Document")).map Prod.snd).getD (strL "none"))

/-- `RAGIntegration.search_documents(query, expanded_query=None, limit=10)`. -/
def searchDocuments (env : StoreEnv) (query : Str) (expandedQ : Option Str) (limit : Nat) :
    List RetDoc :=
  let _expanded := match expandedQ with
    | none => expandQuery query
    | some e => if e.isEmpty then expandQuery query else e
  if !env.clientPresent || !env.connected then keywordSearch env query limit
  else
    match env.isReadyRes with
    | .error _ => keywordSearch env query limit
    | .ok ready =>
      if !ready then keywordSearch env query limit
      else
        let results :=
          if vectorizerOf env ≠ strL "none" then
            match env.nearTextRes _expanded limit with
            | .error _ => []
            | .ok docs => docs
          else []
        let results := if results.isEmpty then results ++ keywordSearch env query limit else results
        if !results.isEmpty then rerankDocuments results query else results

/- ---------------------------------------------------------------------
   Index writer: the content identifier is
   `str(uuid.uuid5(uuid.NAMESPACE_DNS, content[:1000] if content else "empty"))`.
   SHA-1 and the RFC 4122 name-based UUID are implemented over byte lists
   (`Nat` below `256`), with 32-bit words as `Nat` reduced `% 2^32`.
   --------------------------------------------------------------------- -/

def w32 : Nat := 4294967296

def rotl32 (n x : Nat) : Nat := ((x <<< n) % w32) ||| (x >>> (32 - n))

/-- Big-endian byte rendering of `n` in `k` bytes. -/
def beBytes (k n : Nat) : List Nat :=
  (List.range k).map (fun i => (n >>> (8 * (k - 1 - i))) % 256)

/-- SHA-1 message padding: `0x80`, zeros to 56 mod 64, 8-byte bit length. -/
def sha1Pad (msg : List Nat) : List Nat :=
  msg ++ [0x80] ++ List.replicate ((119 - (msg.length % 64)) % 64) 0
    ++ beBytes 8 (msg.length * 8)

def chunksOf64 (l : List Nat) : List (List Nat) :=
  if l.isEmpty then [] else l.take 64 :: chunksOf64 (l.drop 64)
termination_by l.length
decreasing_by
  simp only [List.length_drop]
  cases l with
  | nil => simp_all
  | cons a t => simp only [List.length_cons]; omega

/-- The sixteen initial 32-bit big-endian words of a 64-byte block. -/
def wordsOfBlock (b : List Nat) : List Nat :=
  (List.range 16).map (fun i =>
    (b.getD (4 * i) 0) <<< 24 + (b.getD (4 * i + 1) 0) <<< 16
      + (b.getD (4 * i + 2) 0) <<< 8 + b.getD (4 * i + 3) 0)

/-- Extend sixteen words to eighty. -/
def sha1Extend (w16 : List Nat) : List Nat :=
  (List.range 64).foldl
    (fun w _ => w ++ [rotl32 1
      ((w.getD (w.length - 3) 0) ^^^ (w.getD (w.length - 8) 0)
        ^^^ (w.getD (w.length - 14) 0) ^^^ (w.getD (w.length - 16) 0))])
    w16

abbrev Sha1State := Nat × Nat × Nat × Nat × Nat

def sha1Round (st : Sha1State) (iw : Nat × Nat) : Sha1State :=
  let a := st.1
  let b := st.2.1
  let c := st.2.2.1
  let d := st.2.2.2.1
  let e := st.2.2.2.2
  let i := iw.1
  let f := if i < 20 then (b &&& c) ||| ((b ^^^ (w32 - 1)) &&& d)
    else if i < 40 then b ^^^ c ^^^ d
    else if i < 60 then (b &&& c) ||| (b &&& d) ||| (c &&& d)
    else b ^^^ c ^^^ d
  let k := if i < 20 then 0x5A827999
    else if i < 40 then 0x6ED9EBA1
    else if i < 60 then 0x8F1BBCDC
    else 0xCA62C1D6
  let temp := (rotl32 5 a + f + e + k + iw.2) % w32
  (temp, a, rotl32 30 b, c, d)

def sha1Block (h : Sha1State) (block : List Nat) : Sha1State :=
  let w := sha1Extend (wordsOfBlock block)
  let st := ((List.range 80).zip w).foldl sha1Round h
  ((h.1 + st.1) % w32, (h.2.1 + st.2.1) % w32, (h.2.2.1 + st.2.2.1) % w32,
   (h.2.2.2.1 + st.2.2.2.1) % w32, (h.2.2.2.2 + st.2.2.2.2) % w32)

/-- SHA-1 digest (20 bytes) of a byte list. -/
def sha1 (msg : List Nat) : List Nat :=
  let h := (chunksOf64 (sha1Pad msg)).foldl sha1Block
    (0x67452301, 0xEFCDAB89, 0x98BADCFE, 0x10325476, 0xC3D2E1F0)
  beBytes 4 h.1 ++ beBytes 4 h.2.1 ++ beBytes 4 h.2.2.1
    ++ beBytes 4 h.2.2.2.1 ++ beBytes 4 h.2.2.2.2

/-- UTF-8 encoding of one Unicode scalar value. -/
def utf8Char (c : Char) : List Nat :=
  let n := c.toNat
  if n < 0x80 then [n]
  else if n < 0x800 then [0xC0 + n / 64, 0x80 + n % 64]
  else if n < 0x10000 then [0xE0 + n / 4096, 0x80 + (n / 64) % 64, 0x80 + n % 64]
  else [0xF0 + n / 262144, 0x80 + (n / 4096) % 64, 0x80 + (n / 64) % 64, 0x80 + n % 64]

def utf8Bytes (s : Str) : List Nat := s.flatMap utf8Char

/-- The bytes of `uuid.NAMESPACE_DNS`. -/
def dnsNamespaceBytes : List Nat :=
  [0x6b, 0xa7, 0xb8, 0x10, 0x9d, 0xad, 0x11, 0xd1,
   0x80, 0xb4, 0x00, 0xc0, 0x4f, 0xd4, 0x30, 0xc8]

/-- The sixteen bytes of `uuid.uuid5(uuid.NAMESPACE_DNS, name)`: SHA-1 of
    namespace-plus-name, truncated, with version and variant bits set. -/
def uuid5Bytes (name : Str) : List Nat :=
  ((sha1 (dnsNamespaceBytes ++ utf8Bytes name)).take 16).enum.map
    (fun p => if p.1 = 6 then (p.2 &&& 0x0F) ||| 0x50
              else if p.1 = 8 then (p.2 &&& 0x3F) ||| 0x80
              else p.2)

def hexDigit (n : Nat) : Char :=
  if n < 10 then Char.ofNat ('0'.toNat + n) else Char.ofNat ('a'.toNat + n - 10)

def hexByte (v : Nat) : Str := [hexDigit (v / 16 % 16), hexDigit (v % 16)]

/-- `str(uuid.uuid5(uuid.NAMESPACE_DNS, name))`. -/
def uuid5dns (name : Str) : Str :=
  let b := uuid5Bytes name
  (b.take 4).flatMap hexByte ++ ['-'] ++ ((b.drop 4).take 2).flatMap hexByte
    ++ ['-'] ++ ((b.drop 6).take 2).flatMap hexByte
    ++ ['-'] ++ ((b.drop 8).take 2).flatMap hexByte
    ++ ['-'] ++ (b.drop 10).flatMap hexByte

/-- The per-chunk sanitization of `index_document`: stripping the surrogate
    range and re-encoding with `errors='ignore'` is the identity on Unicode
    scalar values, which is all a Lean `Char` can hold. -/
def sanitizeText (s : Str) : Str := s

/-- The content identifier computed by `index_document` for one chunk:
    `uuid.uuid5(uuid.NAMESPACE_DNS, content[:1000] if content else "empty")`
    over the sanitized chunk body. -/
def chunkContentId (chunk : IngestDoc) : Str :=
  let content := sanitizeText (chunk.content?.getD [])
  uuid5dns (if content.isEmpty then strL "empty" else content.take 1000)

def metaLookup (m : List (Str × MetaVal)) (k : Str) : Option MetaVal :=
  (m.find? (fun p => p.1 == k)).map Prod.snd

/-- `str(metadata.get(k, ""))`. -/
def metaStr (v : Option MetaVal) : Str :=
  match v with
  | none => []
  | some (.strV s) => s
  | some (.natV n) => (toString n).toList

/-- `os.path.basename`. -/
def pyBasename (p : Str) : Str := ((splitSlash p).getLast?).getD []

/-- The record `index_document` hands to the store's batch for one chunk.
    The `metadata_json` field serializes `{file_path, processed_at}`; the
    model keeps the pair itself since no claim depends on the JSON text. -/
structure DataObj where
  title : Str
  content : Str
  metadataPair : Str × Str
  filePath : Str
  fileName : Str
  semanticContext? : Option Str
  keywords? : Option (List Str)
deriving DecidableEq, Repr

def mkDataObj (chunk : IngestDoc) : DataObj :=
  let fp := match chunk.metadata? with
    | none => []
    | some m => if m.isEmpty then [] else metaStr (metaLookup m (strL "file_path"))
  let pa := match chunk.metadata? with
    | none => []
    | some m => if m.isEmpty then [] else metaStr (metaLookup m (strL "processed_at"))
  { title := sanitizeText (chunk.title?.getD []),
    content := sanitizeText (chunk.content?.getD []),
    metadataPair := (fp, pa),
    filePath := fp,
    fileName := pyBasename fp,
    semanticContext? := chunk.semanticContext?.map sanitizeText,
    keywords? := match chunk.keywords? with
      | none => none
      | some kws =>
        let ks := kws.filter (fun k => !k.isEmpty)
        if ks.isEmpty then none else some ks }

/-- `DocumentIngestor.index_document`: semantic chunks, each upserted under
    its content identifier (the function itself returns `True`; the pairs
    below are what reaches the store's batch). -/
def indexDocument (doc : IngestDoc) : List (Str × DataObj) :=
  (chunkDocumentSemantic doc).map (fun ch => (chunkContentId ch, mkDataObj ch))

def indexDocumentIds (doc : IngestDoc) : List Str := (indexDocument doc).map Prod.fst

/- ---------------------------------------------------------------------
   `reindex_all_documents`: walk a directory, skip unsupported extensions,
   account per-file success/failure.  The per-file outcome of
   `process_document` + `index_document` (which touch the filesystem and
   the store) is injected per entry: `.error` models an exception caught by
   the per-file handler, `.ok b` models `index_document` returning `b`.
   --------------------------------------------------------------------- -/

structure DirEntry where
  name : Str
  isFile : Bool
  procIdxRes : Except Str Bool

structure DirFS where
  dirExists : Bool
  entries : List DirEntry

structure ReindexStats where
  success : Nat
  failed : Nat
  skipped : Nat
deriving DecidableEq, Repr

def supportedExts : List Str := strLs [".pdf", ".docx", ".doc", ".txt", ".md", ".csv"]

/-- `os.path.splitext(file_path)[1].lower() in [...]`. -/
def isSupportedExt (name : Str) : Bool :=
  decide (lowerStr (pySplitExt name).2 ∈ supportedExts)

/-- Whether the injected per-file outcome is `index_document` returning `True`. -/
def entryOk (e : DirEntry) : Bool :=
  match e.procIdxRes with
  | .ok true => true
  | _ => false

def reindexStep (st : ReindexStats) (e : DirEntry) : ReindexStats :=
  if !e.isFile then st
  else if !isSupportedExt e.name then
    { st with skipped := st.skipped + 1 }
  else
    match e.procIdxRes with
    | .error _ => { st with failed := st.failed + 1 }
    | .ok true => { st with success := st.success + 1 }
    | .ok false => { st with failed := st.failed + 1 }

/-- The `stats` dictionary in the order its keys are created. -/
def statsToDict (st : ReindexStats) : List (Str × Nat) :=
  [(strL "success", st.success), (strL "failed", st.failed), (strL "skipped", st.skipped)]

/-- `DocumentIngestor.reindex_all_documents(data_dir)`. -/
def reindexAllDocuments (fs : DirFS) : List (Str × Nat) :=
  if !fs.dirExists then statsToDict ⟨0, 0, 0⟩
  else statsToDict (fs.entries.foldl reindexStep ⟨0, 0, 0⟩)

/-- A 910-character query used to exhibit the 1000-character truncation of
    `_expand_query`: its token `discovery` matches the `discovery` key. -/
def longDiscoveryQuery : Str := strL "discovery " ++ List.replicate 900 'x'

/-- A three-paragraph document used to exhibit the behaviour of
    `chunk_document` at paragraph boundaries. -/
def threeParagraphDoc : IngestDoc :=
  ⟨some (strL "T"), some (strL "abc\n\ndef\n\nghi"), some [], none, none⟩

/-- A document whose body is just a paragraph separator (`"\n\n"`). -/
def blankParagraphsDoc : IngestDoc :=
  ⟨some (strL "T"), some (strL "\n\n"), some [], none, none⟩

/-- A document ending in a header paragraph with no body after it. -/
def trailingHeaderDoc : IngestDoc :=
  ⟨some (strL "T"), some (strL "some text 123\n\nINTRO"), some [], none, none⟩

/- ---------------------------------------------------------------------
   Theorems.
   --------------------------------------------------------------------- -/

set_option maxRecDepth 40000

theorem listUnion_eq_right {α : Type} [DecidableEq α] (l₁ l₂ : List α)
    (h : ∀ a ∈ l₁, a ∈ l₂) : l₁ ∪ l₂ = l₂ := by
  induction l₁ with
  | nil => exact List.nil_union l₂
  | cons a t ih =>
    rw [List.cons_union, ih (fun x hx => h x (List.mem_cons_of_mem _ hx))]
    exact List.insert_of_mem (h a (List.mem_cons_self _ _))

/-- C10: for every document whose `content` field is empty or absent, both
    chunking operations return the one-element list holding the original
    document record itself, with no keywords, semantic-context label,
    `chunk_index` or `total_chunks` added. -/
theorem chunk_empty_content_returns_document (doc : IngestDoc) (cs ov : Nat)
    (h : doc.content?.getD [] = []) :
    chunkDocument doc cs ov = [doc] ∧ chunkDocumentSemantic doc = [doc] := by
  unfold chunkDocument chunkDocumentSemantic
  simp [h]

theorem chunk_empty_content_returns_document_witness :
    chunkDocument ⟨some (strL "T"), none, some [], none, none⟩ 1000 200
        = [⟨some (strL "T"), none, some [], none, none⟩]
      ∧ chunkDocumentSemantic ⟨some (strL "T"), none, some [], none, none⟩
        = [⟨some (strL "T"), none, some [], none, none⟩] :=
  chunk_empty_content_returns_document ⟨some (strL "T"), none, some [], none, none⟩ 1000 200 rfl

/-- C2: the content identifier computed at indexing time is a function of the
    chunk's body text alone: identical bodies yield identical identifiers,
    the identifier ignores title, metadata, keywords and context label, and
    indexing the same document twice produces no new identifier (the stored
    identifier set is unchanged). -/
theorem chunk_content_id_deterministic :
    (∀ c1 c2 : IngestDoc, c1.content?.getD [] = c2.content?.getD [] →
        chunkContentId c1 = chunkContentId c2)
    ∧ (∀ (c : IngestDoc) (t : Option Str) (m : Option (List (Str × MetaVal)))
          (k : Option (List Str)) (sc : Option Str),
        chunkContentId { c with title? := t, metadata? := m, keywords? := k,
                                semanticContext? := sc }
          = chunkContentId c)
    ∧ (∀ doc : IngestDoc,
        (indexDocumentIds doc ++ indexDocumentIds doc).dedup
          = (indexDocumentIds doc).dedup) := by
  refine ⟨?_, ?_, ?_⟩
  · intro c1 c2 h
    unfold chunkContentId sanitizeText
    rw [h]
  · intro c t m k sc
    rfl
  · intro doc
    rw [List.dedup_append]
    exact listUnion_eq_right _ _ (fun a ha => List.mem_dedup.mpr ha)

theorem chunk_content_id_deterministic_witness :
    chunkContentId ⟨some (strL "A"), some (strL "same body"), some [], none, none⟩
      = chunkContentId ⟨some (strL "B"), some (strL "same body"), none,
          some [strL "kw"], some (strL "geral")⟩ :=
  chunk_content_id_deterministic.1 _ _ rfl

/-- C9: the reranker's output is a permutation of its input candidate list —
    no candidate is dropped or duplicated, zero-scored candidates included —
    and its length equals the input length. -/
theorem rerank_is_permutation (documents : List RetDoc) (query : Str) :
    (rerankDocuments documents query).Perm documents
    ∧ (rerankDocuments documents query).length = documents.length := by
  have hperm : (rerankDocuments documents query).Perm documents := by
    unfold rerankDocuments
    cases documents with
    | nil => simp
    | cons d ds =>
      simp only [List.isEmpty_cons, Bool.false_eq_true, if_false]
      have h1 := List.mergeSort_perm
        ((d :: ds).map (fun x => (x, rerankScore query x))) (fun a b => b.2 ≤ a.2)
      have h2 := h1.map Prod.fst
      have h3 : ((d :: ds).map (fun x => (x, rerankScore query x))).map Prod.fst = d :: ds := by
        rw [List.map_map]
        exact List.map_id' _
      rw [h3] at h2
      exact h2
  exact ⟨hperm, hperm.length_eq⟩

/-- C7 counterexample: a 1001-character query containing no expandable token
    and no profile term is returned unchanged by `_expand_query`, so the
    returned string exceeds 1000 characters. -/
theorem expand_query_length_cap_cex :
    1000 < (expandQuery (List.replicate 1001 'x')).length := by
  decide

/-- C7 amended: `_expand_query` caps its result at 1000 characters only when
    expansion terms were found; when none are found the original query is
    returned unchanged, whatever its length. -/
theorem expand_query_length (query : Str) :
    (expansionTermsOf query = [] → expandQuery query = query)
    ∧ (expansionTermsOf query ≠ [] → (expandQuery query).length ≤ 1000) := by
  constructor
  · intro h
    simp [expandQuery, h]
  · intro h
    have hne : (expansionTermsOf query).isEmpty = false := by
      cases hq : (expansionTermsOf query).isEmpty
      · rfl
      · exact absurd (List.isEmpty_iff.mp hq) h
    simp only [expandQuery, hne, Bool.false_eq_true, if_false]
    split
    · simp only [List.length_take]
      omega
    · omega

theorem expand_query_length_witness :
    expandQuery (strL "zzzz") = strL "zzzz"
    ∧ (expandQuery (strL "discovery")).length ≤ 1000 :=
  ⟨(expand_query_length (strL "zzzz")).1 (by decide),
   (expand_query_length (strL "discovery")).2 (by decide)⟩

theorem reindexFold_counts (l : List DirEntry) (st : ReindexStats) :
    l.foldl reindexStep st =
      ⟨st.success + (l.filter (fun e => e.isFile && isSupportedExt e.name)).countP entryOk,
       st.failed + (l.filter (fun e => e.isFile && isSupportedExt e.name)).countP
         (fun e => !entryOk e),
       st.skipped + (l.filter (fun e => e.isFile && !isSupportedExt e.name)).length⟩ := by
  induction l generalizing st with
  | nil => simp
  | cons e t ih =>
    rw [List.foldl_cons, ih]
    cases hf : e.isFile
    · simp [reindexStep, hf, List.filter_cons]
    · cases hs : isSupportedExt e.name
      · simp [reindexStep, hf, hs, List.filter_cons]
        omega
      · cases hp : e.procIdxRes with
        | error m =>
          simp [reindexStep, hf, hs, hp, List.filter_cons, List.countP_cons, entryOk]
          omega
        | ok b =>
          cases b <;>
            simp [reindexStep, hf, hs, hp, List.filter_cons, List.countP_cons, entryOk] <;>
            omega

/-- C8 amended: for every directory, `reindex_all_documents` returns exactly
    the aggregate `{success, failed, skipped}` counters — unsupported
    extensions counted as skipped, per-file errors and `index_document`
    returning `False` counted as failed, without aborting the run — and
    nothing else: in particular no list of failed file paths. -/
theorem reindex_returns_counts (fs : DirFS) :
    reindexAllDocuments fs =
      if fs.dirExists then
        [(strL "success",
           (fs.entries.filter (fun e => e.isFile && isSupportedExt e.name)).countP entryOk),
         (strL "failed",
           (fs.entries.filter (fun e => e.isFile && isSupportedExt e.name)).countP
             (fun e => !entryOk e)),
         (strL "skipped",
           (fs.entries.filter (fun e => e.isFile && !isSupportedExt e.name)).length)]
      else [(strL "success", 0), (strL "failed", 0), (strL "skipped", 0)] := by
  unfold reindexAllDocuments
  cases hd : fs.dirExists
  · simp [hd, statsToDict]
  · simp only [hd, Bool.not_true, Bool.false_eq_true, if_false, if_true]
    rw [reindexFold_counts]
    simp [statsToDict]

/-- C8 counterexample: with a directory holding one failing file, one
    unsupported file and one succeeding file, the returned value is exactly
    the three counters — there is no list of failed file paths anywhere in
    it (no key of the returned dictionary is the failing file's name). -/
theorem reindex_no_failed_paths_cex :
    reindexAllDocuments ⟨true,
        [⟨strL "bad.txt", true, .ok false⟩,
         ⟨strL "img.png", true, .ok true⟩,
         ⟨strL "good.md", true, .ok true⟩]⟩
      = [(strL "success", 1), (strL "failed", 1), (strL "skipped", 1)]
    ∧ ∀ p ∈ reindexAllDocuments ⟨true,
        [⟨strL "bad.txt", true, .ok false⟩,
         ⟨strL "img.png", true, .ok true⟩,
         ⟨strL "good.md", true, .ok true⟩]⟩, p.1 ≠ strL "bad.txt" := by
  decide

/-- C1: when every vector-store call raises, `search_documents` still
    returns a list without raising: it falls through to the local-file tier
    (the keyword tier's bulk fetch having failed as well), and when the
    local data directory does not exist — so every tier has failed — it
    returns the empty list. -/
theorem search_documents_all_store_failures (env : StoreEnv) (query : Str)
    (expandedQ : Option Str) (limit : Nat)
    (h1 : ∃ m, env.isReadyRes = .error m)
    (h2 : ∃ m, env.getAllRes = .error m) :
    searchDocuments env query expandedQ limit
        = localFileSearch env (keywordExpandedTerms query) limit
    ∧ (env.dataDirExists = false → searchDocuments env query expandedQ limit = []) := by
  obtain ⟨m1, hr⟩ := h1
  obtain ⟨m2, hg⟩ := h2
  have hk : keywordSearch env query limit
      = localFileSearch env (keywordExpandedTerms query) limit := by
    unfold keywordSearch
    rw [hg]
    cases hc : (!env.clientPresent || !env.connected) <;> simp [hc]
  have hs : searchDocuments env query expandedQ limit = keywordSearch env query limit := by
    unfold searchDocuments
    rw [hr]
    cases hc : (!env.clientPresent || !env.connected) <;> simp [hc]
  refine ⟨hs.trans hk, fun hd => ?_⟩
  rw [hs, hk]
  unfold localFileSearch
  simp [hd]

theorem search_documents_all_store_failures_witness :
    searchDocuments
        ⟨true, true, .error (strL "down"), .error (strL "down"),
         fun _ _ => .error (strL "down"), .error (strL "down"),
         false, strL "/data/raw", []⟩
        (strL "quais são os perfis de usuários?") none 10 = [] :=
  (search_documents_all_store_failures _ _ none 10 ⟨_, rfl⟩ ⟨_, rfl⟩).2 rfl

theorem rerankScore_decomp (query : Str) (doc : RetDoc) :
    rerankScore query doc
      = rerankBaseScore query doc
        + (if isSubstr (lowerStr query) (lowerStr doc.content) then 50 else 0) := by
  unfold rerankScore rerankBaseScore
  simp only []
  omega

/-- C5 counterexample: with query `"ab cd"`, a candidate containing the
    exact query substring scores 54, while a candidate that does not contain
    it — but repeats the term `"ab"` 28 times — scores 56 and is therefore
    placed above the exact match. -/
theorem rerank_exact_match_cex :
    isSubstr (lowerStr (strL "ab cd"))
        (lowerStr (strL "ab cd")) = true
    ∧ isSubstr (lowerStr (strL "ab cd"))
        (lowerStr ((List.replicate 28 (strL "ab ")).flatten)) = false
    ∧ rerankScore (strL "ab cd") ⟨[], strL "ab cd", [], [], [], [], 0⟩
        < rerankScore (strL "ab cd")
            ⟨[], (List.replicate 28 (strL "ab ")).flatten, [], [], [], [], 0⟩ := by
  decide

/-- C5 amended: the exact-phrase match contributes a fixed +50 bonus that a
    non-matching candidate never receives, so the exact-match candidate is
    scored at or above every non-matching candidate whose remaining score
    components exceed its own by at most 50. -/
theorem rerank_exact_match_bonus (query : Str) (dA dB : RetDoc)
    (hA : isSubstr (lowerStr query) (lowerStr dA.content) = true)
    (hB : isSubstr (lowerStr query) (lowerStr dB.content) = false)
    (hbase : rerankBaseScore query dB ≤ rerankBaseScore query dA + 50) :
    rerankScore query dB ≤ rerankScore query dA := by
  have e1 := rerankScore_decomp query dA
  have e2 := rerankScore_decomp query dB
  rw [hA] at e1
  rw [hB] at e2
  simp only [if_true, Bool.false_eq_true, if_false] at e1 e2
  omega

theorem rerank_exact_match_bonus_witness :
    rerankScore (strL "ab cd") ⟨[], strL "zz", [], [], [], [], 0⟩
      ≤ rerankScore (strL "ab cd") ⟨[], strL "ab cd", [], [], [], [], 0⟩ :=
  rerank_exact_match_bonus (strL "ab cd") ⟨[], strL "ab cd", [], [], [], [], 0⟩
    ⟨[], strL "zz", [], [], [], [], 0⟩ (by decide) (by decide) (by decide)

theorem mem_dedupFirstAux {x : Str} :
    ∀ (l seen : List Str), x ∈ l → x ∉ seen → x ∈ dedupFirstAux seen l := by
  intro l
  induction l with
  | nil => intro seen h _; cases h
  | cons y ys ih =>
    intro seen hx hseen
    unfold dedupFirstAux
    by_cases hy : y ∈ seen
    · simp only [hy, if_true]
      rcases List.mem_cons.mp hx with h | h
      · exact absurd (h ▸ hy) hseen
      · exact ih seen h hseen
    · simp only [hy, if_false]
      by_cases hxy : x = y
      · exact hxy ▸ List.mem_cons_self _ _
      · rcases List.mem_cons.mp hx with h | h
        · exact absurd h hxy
        · exact List.mem_cons_of_mem _
            (ih (y :: seen) h (by simp [List.mem_cons, hxy, hseen]))

theorem mem_dedupKeepFirst {x : Str} {l : List Str} (h : x ∈ l) :
    x ∈ dedupKeepFirst l :=
  mem_dedupFirstAux l [] h (List.not_mem_nil x)

theorem infix_joinSep (sep : Str) :
    ∀ (l : List Str) (x : Str), x ∈ l → x <:+: joinSep sep l := by
  intro l
  induction l with
  | nil => intro x h; cases h
  | cons y ys ih =>
    intro x hx
    cases ys with
    | nil =>
      have hxy : x = y := by simpa using hx
      subst hxy
      exact List.infix_refl x
    | cons z zs =>
      rcases List.mem_cons.mp hx with h | h
      · subst h
        have : x <+: x ++ (sep ++ joinSep sep (z :: zs)) := List.prefix_append x _
        show x <:+: x ++ sep ++ joinSep sep (z :: zs)
        rw [List.append_assoc]
        exact this.isInfix
      · refine (ih x h).trans ?_
        show joinSep sep (z :: zs) <:+: y ++ sep ++ joinSep sep (z :: zs)
        exact (List.suffix_append (y ++ sep) _).isInfix

/-- C6 counterexample: the 910-character query `"discovery " + "x"*900`
    contains the token `discovery`, a key of the expansion table whose
    configured terms include `insights`; the expanded string is 1013
    characters long, the 1000-character cap truncates it, and the returned
    query does not contain `insights`. -/
theorem expand_query_expansion_terms_cex :
    (strL "discovery") ∈ queryWords longDiscoveryQuery
    ∧ (∃ p ∈ topicExpansions, p.1 = strL "discovery" ∧ strL "insights" ∈ p.2)
    ∧ isSubstr (strL "insights") (expandQuery longDiscoveryQuery) = false := by
  have hE : expansionTermsOf longDiscoveryQuery
      = strLs ["pesquisa", "investigação", "exploração", "análise", "estudo",
               "levantamento", "diagnóstico", "avaliação", "descoberta", "insights"] := by
    decide
  have hJ : joinSep [' '] (dedupKeepFirst (expansionTermsOf longDiscoveryQuery))
      = strL "pesquisa investigação exploração análise estudo levantamento diagnóstico avaliação descoberta insights" := by
    rw [hE]; decide
  have hq : longDiscoveryQuery.length = 910 := by decide
  have hlen : 1000 < (longDiscoveryQuery ++ [' ']
      ++ joinSep [' '] (dedupKeepFirst (expansionTermsOf longDiscoveryQuery))).length := by
    rw [hJ]
    simp only [List.length_append, hq]
    decide
  have hne : (expansionTermsOf longDiscoveryQuery).isEmpty = false := by
    rw [hE]; decide
  have hexp : expandQuery longDiscoveryQuery
      = (longDiscoveryQuery ++ [' ']
          ++ joinSep [' '] (dedupKeepFirst (expansionTermsOf longDiscoveryQuery))).take 1000 := by
    simp only [expandQuery, hne, Bool.false_eq_true, if_false]
    split
    · rfl
    · exfalso; omega
  have htake : expandQuery longDiscoveryQuery
      = longDiscoveryQuery ++ [' ']
        ++ strL "pesquisa investigação exploração análise estudo levantamento diagnóstico avaliação descob" := by
    rw [hexp, hJ, List.take_append_eq_append_take, List.take_append_eq_append_take]
    rw [List.take_of_length_le (by rw [hq]; omega),
        List.take_of_length_le (l := [' ']) (by simp [hq])]
    rw [List.length_append, hq]
    decide
  refine ⟨by decide, by decide, ?_⟩
  rw [htake]
  decide

/-- C6 amended: if some query token of more than three characters matches an
    expansion-table key (as a substring in either direction) and the
    expanded string fits under the 1000-character cap, then the expanded
    query extends the original query and contains every configured expansion
    term of that key. -/
theorem expand_query_contains_expansions (query key w : Str) (exps : List Str)
    (hk : (key, exps) ∈ topicExpansions)
    (hw : w ∈ queryWords query)
    (hmatch : (isSubstr w key || isSubstr key w) = true)
    (hlen : (query ++ [' ']
        ++ joinSep [' '] (dedupKeepFirst (expansionTermsOf query))).length ≤ 1000) :
    query <+: expandQuery query ∧ ∀ t ∈ exps, t <:+: expandQuery query := by
  have hsub : ∀ t ∈ exps, t ∈ expansionTermsOf query := by
    intro t ht
    unfold expansionTermsOf
    apply List.mem_append_left
    exact List.mem_flatMap.mpr
      ⟨w, hw, List.mem_flatMap.mpr ⟨(key, exps), hk, by simp [hmatch, ht]⟩⟩
  by_cases he : expansionTermsOf query = []
  · have heq : expandQuery query = query := by simp [expandQuery, he]
    refine ⟨by rw [heq], fun t ht => absurd (hsub t ht) (by simp [he])⟩
  · have hne : (expansionTermsOf query).isEmpty = false := by
      cases hq : (expansionTermsOf query).isEmpty
      · rfl
      · exact absurd (List.isEmpty_iff.mp hq) he
    have heq : expandQuery query
        = query ++ [' '] ++ joinSep [' '] (dedupKeepFirst (expansionTermsOf query)) := by
      simp only [expandQuery, hne, Bool.false_eq_true, if_false]
      split
      · exfalso; omega
      · rfl
    constructor
    · rw [heq, List.append_assoc]
      exact List.prefix_append query _
    · intro t ht
      have h1 : t ∈ dedupKeepFirst (expansionTermsOf query) := mem_dedupKeepFirst (hsub t ht)
      have h2 := infix_joinSep [' '] _ t h1
      rw [heq]
      exact h2.trans (List.suffix_append (query ++ [' ']) _).isInfix

theorem expand_query_contains_expansions_witness :
    strL "discovery" <+: expandQuery (strL "discovery")
    ∧ ∀ t ∈ strLs ["pesquisa", "investigação", "exploração", "análise", "estudo",
        "levantamento", "diagnóstico", "avaliação", "descoberta", "insights"],
        t <:+: expandQuery (strL "discovery") :=
  expand_query_contains_expansions (strL "discovery") (strL "discovery") (strL "discovery")
    (strLs ["pesquisa", "investigação", "exploração", "análise", "estudo",
        "levantamento", "diagnóstico", "avaliação", "descoberta", "insights"])
    (by decide) (by decide) (by decide) (by decide)

theorem sliceParagraph_covers (cs ov : Nat) (hov : ov < cs) (q : Str) (c : Char)
    (hc : c ∈ q) : ∃ b ∈ sliceParagraph cs ov q, c ∈ b := by
  obtain ⟨j, hj, rfl⟩ := List.mem_iff_getElem.mp hc
  have hstep0 : 0 < cs - ov := by omega
  have hmj : (j / (cs - ov)) * (cs - ov) ≤ j := Nat.div_mul_le_self j (cs - ov)
  have hjm : j < (j / (cs - ov)) * (cs - ov) + (cs - ov) := by
    have h1 := Nat.mod_lt j hstep0
    have h2 := Nat.div_add_mod j (cs - ov)
    rw [Nat.mul_comm] at h2
    omega
  refine ⟨(q.drop ((j / (cs - ov)) * (cs - ov))).take cs, ?_, ?_⟩
  · unfold sliceParagraph sliceStarts
    rw [if_neg (by omega)]
    apply List.mem_map.mpr
    refine ⟨(j / (cs - ov)) * (cs - ov), ?_, rfl⟩
    apply List.mem_range'.mpr
    refine ⟨j / (cs - ov), ?_, by rw [Nat.zero_add, Nat.mul_comm]⟩
    have hq : (j / (cs - ov)) * (cs - ov) < q.length := lt_of_le_of_lt hmj hj
    have hdiv : (j / (cs - ov)) + 1 ≤ (q.length + (cs - ov) - 1) / (cs - ov) := by
      rw [Nat.le_div_iff_mul_le hstep0]
      have hexpand : (j / (cs - ov) + 1) * (cs - ov)
          = (j / (cs - ov)) * (cs - ov) + (cs - ov) := by ring
      omega
    omega
  · apply List.mem_iff_getElem.mpr
    have hlen1 : j - (j / (cs - ov)) * (cs - ov)
        < ((q.drop ((j / (cs - ov)) * (cs - ov))).take cs).length := by
      simp only [List.length_take, List.length_drop]
      omega
    refine ⟨j - (j / (cs - ov)) * (cs - ov), hlen1, ?_⟩
    rw [List.getElem_take, List.getElem_drop]
    simp only [show (j / (cs - ov)) * (cs - ov) + (j - (j / (cs - ov)) * (cs - ov)) = j from by
      omega]

theorem chunkFold_covers (cs ov : Nat) (hov : ov < cs) :
    ∀ (ps : List Str) (st : List Str × Str) (c : Char),
      ((∃ p ∈ ps, c ∈ p) ∨ (∃ b ∈ st.1, c ∈ b) ∨ c ∈ st.2) →
      ∃ b ∈ flushChunks (ps.foldl (chunkStep cs ov) st), c ∈ b := by
  intro ps
  induction ps with
  | nil =>
    intro st c h
    rcases h with ⟨p, hp, _⟩ | ⟨b, hb, hcb⟩ | hc
    · cases hp
    · refine ⟨b, ?_, hcb⟩
      unfold flushChunks
      split
      · exact hb
      · exact List.mem_append_left _ hb
    · refine ⟨st.2, ?_, hc⟩
      unfold flushChunks
      split
      · next hemp => exact absurd (List.isEmpty_iff.mp hemp ▸ hc) (List.not_mem_nil c)
      · exact List.mem_append_right _ (List.mem_cons_self _ _)
  | cons p ps ih =>
    intro st c h
    rw [List.foldl_cons]
    apply ih
    by_cases h1 : cs < p.length
    · -- the oversized-paragraph branch
      rcases h with ⟨q, hq, hcq⟩ | ⟨b, hb, hcb⟩ | hc
      · rcases List.mem_cons.mp hq with rfl | hq2
        · obtain ⟨b, hb, hcb⟩ := sliceParagraph_covers cs ov hov q c hcq
          exact Or.inr (Or.inl ⟨b, by
            simp only [chunkStep, h1, if_true]
            exact List.mem_append_right _ hb, hcb⟩)
        · exact Or.inl ⟨q, hq2, hcq⟩
      · refine Or.inr (Or.inl ⟨b, ?_, hcb⟩)
        simp only [chunkStep, h1, if_true]
        apply List.mem_append_left
        split
        · exact hb
        · exact List.mem_append_left _ hb
      · have hne : st.2.isEmpty = false := by
          cases hq : st.2.isEmpty
          · rfl
          · exact absurd (List.isEmpty_iff.mp hq ▸ hc) (List.not_mem_nil c)
        refine Or.inr (Or.inl ⟨st.2, ?_, hc⟩)
        simp only [chunkStep, h1, if_true, hne, Bool.false_eq_true, if_false]
        exact List.mem_append_left _ (List.mem_append_right _ (List.mem_cons_self _ _))
    · by_cases h2 : cs < st.2.length + p.length
      · -- flush the current chunk, start a new one from p
        rcases h with ⟨q, hq, hcq⟩ | ⟨b, hb, hcb⟩ | hc
        · rcases List.mem_cons.mp hq with rfl | hq2
          · refine Or.inr (Or.inr ?_)
            simp only [chunkStep, h1, if_false, h2, if_true]
            exact hcq
          · exact Or.inl ⟨q, hq2, hcq⟩
        · refine Or.inr (Or.inl ⟨b, ?_, hcb⟩)
          simp only [chunkStep, h1, if_false, h2, if_true]
          exact List.mem_append_left _ hb
        · refine Or.inr (Or.inl ⟨st.2, ?_, hc⟩)
          simp only [chunkStep, h1, if_false, h2, if_true]
          exact List.mem_append_right _ (List.mem_cons_self _ _)
      · -- append p to the current chunk
        rcases h with ⟨q, hq, hcq⟩ | ⟨b, hb, hcb⟩ | hc
        · rcases List.mem_cons.mp hq with rfl | hq2
          · refine Or.inr (Or.inr ?_)
            simp only [chunkStep, h1, if_false, h2, if_false]
            exact List.mem_append_right _ hcq
          · exact Or.inl ⟨q, hq2, hcq⟩
        · refine Or.inr (Or.inl ⟨b, ?_, hcb⟩)
          simp only [chunkStep, h1, if_false, h2, if_false]
          exact hb
        · refine Or.inr (Or.inr ?_)
          have hne : st.2.isEmpty = false := by
            cases hq : st.2.isEmpty
            · rfl
            · exact absurd (List.isEmpty_iff.mp hq ▸ hc) (List.not_mem_nil c)
          simp only [chunkStep, h1, if_false, h2, if_false, hne, Bool.false_eq_true]
          exact List.mem_append_left _ (List.mem_append_left _ hc)

theorem chunkDocument_bodies (doc : IngestDoc) (cs ov : Nat)
    (h : (doc.content?.getD []).isEmpty = false) :
    (chunkDocument doc cs ov).map (fun d => d.content?.getD [])
      = chunkBodiesOf cs ov (doc.content?.getD []) := by
  unfold chunkDocument
  simp only [h, Bool.false_eq_true, if_false]
  rw [List.map_map]
  have hcomp : ((fun d : IngestDoc => d.content?.getD []) ∘
      (fun p : Nat × Str => mkFixedChunk doc
        (chunkBodiesOf cs ov (doc.content?.getD [])).length p.1 p.2))
      = Prod.snd := by
    funext p
    rfl
  rw [hcomp, List.enum_map_snd]

/-- C3 counterexample: with `chunk_size = 5`, `overlap = 2` and the body
    `"abc\n\ndef\n\nghi"`, `chunk_document` returns the chunks
    `["abc", "def", "ghi"]`: the newline characters separating paragraphs
    are covered by no chunk, and the non-final consecutive pair shares no
    characters at all instead of exactly `overlap = 2`. -/
theorem chunk_document_coverage_cex :
    ('\n' ∈ threeParagraphDoc.content?.getD [])
    ∧ (chunkDocument threeParagraphDoc 5 2).map (fun d => d.content?.getD [])
        = [strL "abc", strL "def", strL "ghi"]
    ∧ (∀ b ∈ (chunkDocument threeParagraphDoc 5 2).map (fun d => d.content?.getD []),
        '\n' ∉ b)
    ∧ (strL "abc").drop 1 ≠ (strL "def").take 2 := by
  decide

/-- C3 amended: under `overlap < chunk_size`, (1) every character of every
    paragraph (the `"\n\n"`-separated pieces of the body) appears in some
    returned chunk — the `"\n\n"` separators falling between chunks are what
    coverage can lose — and (2) consecutive windows sliced from a single
    oversized paragraph overlap exactly: the part of a window beyond the
    stride equals the next window's first `overlap` characters, and that
    shared part has length exactly `overlap` whenever the earlier window is
    full (which fails only near the paragraph's end). -/
theorem chunk_document_paragraph_coverage (doc : IngestDoc) (cs ov : Nat)
    (hov : ov < cs) :
    (∀ p ∈ splitParagraphs (doc.content?.getD []), ∀ c ∈ p,
        ∃ b ∈ (chunkDocument doc cs ov).map (fun d => d.content?.getD []), c ∈ b)
    ∧ (∀ (q : Str) (k : Nat) (hk : k + 1 < (sliceParagraph cs ov q).length),
        ((sliceParagraph cs ov q).get ⟨k, by omega⟩).drop (cs - ov)
            = ((sliceParagraph cs ov q).get ⟨k + 1, hk⟩).take ov
        ∧ (k * (cs - ov) + cs ≤ q.length →
            (((sliceParagraph cs ov q).get ⟨k, by omega⟩).drop (cs - ov)).length = ov)) := by
  constructor
  · intro p hp c hc
    by_cases hemp : (doc.content?.getD []).isEmpty
    · rw [List.isEmpty_iff.mp hemp] at hp
      simp only [splitParagraphs, List.mem_singleton] at hp
      subst hp
      cases hc
    · rw [chunkDocument_bodies doc cs ov (by simpa using hemp)]
      exact chunkFold_covers cs ov hov _ _ c (Or.inl ⟨p, hp, hc⟩)
  · intro q k hk
    have hstep0 : 0 < cs - ov := by omega
    have hsl : sliceParagraph cs ov q
        = (List.range' 0 ((q.length + (cs - ov) - 1) / (cs - ov)) (cs - ov)).map
            (fun i => (q.drop i).take cs) := by
      unfold sliceParagraph sliceStarts
      rw [if_neg (by omega)]
    have hgetm : ∀ (i : Nat) (hi : i < (sliceParagraph cs ov q).length),
        (sliceParagraph cs ov q)[i] = (q.drop ((cs - ov) * i)).take cs := by
      intro i hi
      rw [List.getElem_of_eq hsl hi, List.getElem_map, List.getElem_range', Nat.zero_add]
    have hget1 : (sliceParagraph cs ov q).get ⟨k, by omega⟩
        = (q.drop ((cs - ov) * k)).take cs := by
      rw [List.get_eq_getElem]
      exact hgetm k (by omega)
    have hget2 : (sliceParagraph cs ov q).get ⟨k + 1, hk⟩
        = (q.drop ((cs - ov) * (k + 1))).take cs := by
      rw [List.get_eq_getElem]
      exact hgetm (k + 1) hk
    constructor
    · rw [hget1, hget2]
      rw [List.drop_take, List.drop_drop, List.take_take]
      have e1 : cs - (cs - ov) = ov := by omega
      have e2 : (cs - ov) * k + (cs - ov) = (cs - ov) * (k + 1) := by ring
      have e3 : ov ⊓ cs = ov := by omega
      rw [e1, e2, e3]
    · intro hfull
      rw [hget1]
      simp only [List.length_drop, List.length_take]
      have hmul : (cs - ov) * k = k * (cs - ov) := by ring
      omega

theorem chunk_document_paragraph_coverage_witness :
    ∃ b ∈ (chunkDocument threeParagraphDoc 5 2).map (fun d => d.content?.getD []),
      'a' ∈ b :=
  (chunk_document_paragraph_coverage threeParagraphDoc 5 2 (by decide)).1
    (strL "abc") (by decide) 'a' (by decide)

theorem chunkFold_ne_nil (cs ov : Nat) (hov : ov < cs) :
    ∀ (ps : List Str) (st : List Str × Str),
      (st.1 ≠ [] ∨ st.2 ≠ [] ∨ ∃ p ∈ ps, p ≠ []) →
      flushChunks (ps.foldl (chunkStep cs ov) st) ≠ [] := by
  intro ps
  induction ps with
  | nil =>
    intro st h
    simp only [List.foldl_nil]
    rcases h with h | h | ⟨p, hp, _⟩
    · unfold flushChunks
      split
      · exact h
      · simp
    · have hne : st.2.isEmpty = false := by
        cases hq : st.2.isEmpty
        · rfl
        · exact absurd (List.isEmpty_iff.mp hq) h
      unfold flushChunks
      rw [hne]
      simp
    · cases hp
  | cons p ps ih =>
    intro st h
    rw [List.foldl_cons]
    apply ih
    by_cases h1 : cs < p.length
    · left
      simp only [chunkStep, h1, if_true]
      have hslice : sliceParagraph cs ov p ≠ [] := by
        unfold sliceParagraph sliceStarts
        rw [if_neg (by omega)]
        intro hmapnil
        have hrange := List.map_eq_nil.mp hmapnil
        have hlen := congrArg List.length hrange
        rw [List.length_range'] at hlen
        simp only [List.length_nil] at hlen
        have hdiv := (Nat.div_eq_zero_iff (by omega : 0 < cs - ov)).mp hlen
        omega
      intro heq
      exact hslice (List.append_eq_nil.mp heq).2
    · by_cases h2 : cs < st.2.length + p.length
      · left
        simp only [chunkStep, h1, if_false, h2, if_true]
        simp
      · rcases h with h | h | ⟨q, hq, hqne⟩
        · left
          simpa [chunkStep, h1, h2] using h
        · right; left
          have hne : st.2.isEmpty = false := by
            cases hq : st.2.isEmpty
            · rfl
            · exact absurd (List.isEmpty_iff.mp hq) h
          simp only [chunkStep, h1, if_false, h2, hne, Bool.false_eq_true]
          intro heq
          exact h (List.append_eq_nil.mp (List.append_eq_nil.mp heq).1).1
        · rcases List.mem_cons.mp hq with rfl | hq2
          · right; left
            simp only [chunkStep, h1, if_false, h2, if_false]
            intro heq
            exact hqne (List.append_eq_nil.mp heq).2
          · right; right
            exact ⟨q, hq2, hqne⟩

theorem chunkDocument_ne_nil (doc : IngestDoc) (cs ov : Nat) (hov : ov < cs)
    (h : ∃ p ∈ splitParagraphs (doc.content?.getD []), p ≠ []) :
    chunkDocument doc cs ov ≠ [] := by
  unfold chunkDocument
  by_cases hemp : (doc.content?.getD []).isEmpty
  · simp [hemp]
  · have hemp' : (doc.content?.getD []).isEmpty = false := by simpa using hemp
    simp only [hemp', Bool.false_eq_true, if_false]
    have hb := chunkFold_ne_nil cs ov hov (splitParagraphs (doc.content?.getD []))
      ([], []) (Or.inr (Or.inr h))
    intro heq
    apply hb
    have hlen := congrArg List.length heq
    simp only [List.length_map, List.enum_length, List.length_nil] at hlen
    exact List.length_eq_zero.mp hlen

theorem sectionsFold_eq_nil_of_headers (ps : List Str)
    (h : ∀ p ∈ ps, pyIsHeader p = true) : sectionsFold ps = [] := by
  have aux : ∀ (l : List Str) (secs : List (Str × List Str)) (hdr : Str),
      (∀ p ∈ l, pyIsHeader p = true) →
      ∃ hdr2, l.foldl sectionStep (secs, hdr, []) = (secs, hdr2, []) := by
    intro l
    induction l with
    | nil => intro secs hdr _; exact ⟨hdr, rfl⟩
    | cons p t ih =>
      intro secs hdr hl
      rw [List.foldl_cons]
      have hp := hl p (List.mem_cons_self _ _)
      show ∃ hdr2, t.foldl sectionStep (sectionStep (secs, hdr, []) p) = (secs, hdr2, [])
      rw [show sectionStep (secs, hdr, []) p = (secs, p, []) from by
        simp [sectionStep, hp]]
      exact ih secs p (fun q hq => hl q (List.mem_cons_of_mem _ hq))
  unfold sectionsFold
  obtain ⟨hdr2, heq⟩ := aux ps [] [] h
  rw [heq]
  simp

/-- C4 counterexample: the non-empty body `"\n\n"` yields zero chunks from
    `chunk_document_semantic` (no fall-back output at all), and a document
    ending in the header paragraph `INTRO` silently loses that header: the
    letter `I` occurs in the body but in none of the returned chunks. -/
theorem chunk_semantic_nonempty_cex :
    (blankParagraphsDoc.content?.getD [] ≠ [])
    ∧ chunkDocumentSemantic blankParagraphsDoc = []
    ∧ ('I' ∈ trailingHeaderDoc.content?.getD [])
    ∧ (∀ b ∈ (chunkDocumentSemantic trailingHeaderDoc).map (fun d => d.content?.getD []),
        'I' ∉ b) := by
  decide

/-- C4 amended: `chunk_document_semantic` returns at least one chunk for
    every document whose body has at least one non-empty paragraph (bodies
    made only of `"\n\n"` separators yield zero chunks), and it falls back
    to fixed-window splitting exactly when every kept (non-blank) paragraph
    is classified as a header — a trailing header with no following body
    paragraph is dropped rather than kept as its own section. -/
theorem chunk_semantic_fallback (doc : IngestDoc) :
    ((∃ p ∈ splitParagraphs (doc.content?.getD []), p ≠ []) →
        chunkDocumentSemantic doc ≠ [])
    ∧ ((doc.content?.getD []).isEmpty = false →
        (∀ p ∈ (splitParagraphs (doc.content?.getD [])).filter
            (fun q => !(pyStrip q).isEmpty), pyIsHeader p = true) →
        chunkDocumentSemantic doc = chunkDocument doc 1000 200) := by
  constructor
  · intro h
    unfold chunkDocumentSemantic
    by_cases hemp : (doc.content?.getD []).isEmpty
    · simp [hemp]
    · have hemp' : (doc.content?.getD []).isEmpty = false := by simpa using hemp
      simp only [hemp', Bool.false_eq_true, if_false]
      split
      · exact chunkDocument_ne_nil doc 1000 200 (by omega) h
      · next hsec =>
        intro heq
        have hlen := congrArg List.length heq
        simp only [List.length_map, List.enum_length, List.length_nil] at hlen
        exact hsec (by simp [List.isEmpty_iff, List.length_eq_zero.mp hlen])
  · intro hemp hall
    unfold chunkDocumentSemantic
    simp only [hemp, Bool.false_eq_true, if_false]
    rw [sectionsFold_eq_nil_of_headers _ hall]
    simp

theorem chunk_semantic_fallback_witness :
    chunkDocumentSemantic ⟨some (strL "T"), some (strL "hello world"), some [], none, none⟩
        ≠ []
    ∧ chunkDocumentSemantic ⟨some (strL "T"), some (strL "INTRO"), some [], none, none⟩
        = chunkDocument ⟨some (strL "T"), some (strL "INTRO"), some [], none, none⟩ 1000 200 :=
  ⟨(chunk_semantic_fallback _).1 ⟨strL "hello world", by decide, by decide⟩,
   (chunk_semantic_fallback _).2 (by decide) (by decide)⟩
